import Mathlib

/-!
Verification of the chess-archive collection pipeline.

The definitions below are a shallow embedding of the Python
sources of this repository (`utils/api_clients.py`, `utils/data_processor.py`,
`utils/file_manager.py`, `utils/db_manager.py`, `utils/scheduler.py` and the
manual-collection branch of `app.py`).  Pure helpers become Lean functions;
the file system, the SQLite store and the APScheduler job table become
explicit state values threaded through the functions; exceptions become
`Option`/`Except` results.  Outbound HTTP traffic is modelled by explicit
response values handed to the client functions.
-/

namespace ChessArchive

/-! ## Python string primitives

Small total models of the Python `str` operations used by the sources:
substring containment (`in`), `str.lower`, `str.split(sep)`,
`str.replace`, `int(...)` and lexicographic comparison. -/

/-- Boolean test that `p` is a leading segment of `l` (helper for substring
containment). -/
def charsLeading : List Char → List Char → Bool
  | [], _ => true
  | _ :: _, [] => false
  | a :: as, b :: bs => a = b && charsLeading as bs

/-- Boolean test that `n` occurs contiguously inside `l`. -/
def charsInside (n : List Char) : List Char → Bool
  | [] => n.isEmpty
  | b :: bs => charsLeading n (b :: bs) || charsInside n bs

/-- Python `needle in hay` on strings. -/
def strContains (hay needle : String) : Bool :=
  charsInside needle.toList hay.toList

/-- Python `str.lower()` (ASCII case folding, as used on PGN tag lines). -/
def pyLower (s : String) : String :=
  String.mk (s.toList.map Char.toLower)

/-- Python `str.split(sep)` with a one-character separator, on char lists. -/
def splitChar (c : Char) : List Char → List (List Char)
  | [] => [[]]
  | x :: xs =>
    let r := splitChar c xs
    if x = c then [] :: r
    else
      match r with
      | [] => [[x]]
      | y :: ys => (x :: y) :: ys

/-- Python `str.split(sep)` with a one-character separator. -/
def pySplit (c : Char) (s : String) : List String :=
  (splitChar c s.toList).map String.mk

/-- Python `str.replace(old, new)` with one-character arguments. -/
def pyReplaceChar (old new : Char) (s : String) : String :=
  String.mk (s.toList.map (fun c => if c = old then new else c))

/-- Digit-string accumulator for `int(...)`. -/
def pyIntDigits : List Char → Nat → Option Nat
  | [], acc => some acc
  | c :: cs, acc =>
    if c.isDigit then pyIntDigits cs (acc * 10 + (c.toNat - 48)) else none

/-- Python `int(s)`: `none` models the `ValueError` raised on a
non-numeric string. -/
def pyInt (s : String) : Option Int :=
  match s.toList with
  | [] => none
  | '-' :: rest =>
    if rest.isEmpty then none
    else (pyIntDigits rest 0).map (fun n => -(n : Int))
  | l => (pyIntDigits l 0).map (fun n => (n : Int))

/-- Lexicographic `≤` on char lists by code point (Python string order). -/
def charsLe : List Char → List Char → Bool
  | [], _ => true
  | _ :: _, [] => false
  | a :: as, b :: bs => if a = b then charsLe as bs else decide (a < b)

/-- Python `s <= t` on strings. -/
def strLe (a b : String) : Bool := charsLe a.toList b.toList

/-- Zero-padded decimal rendering, Python `f"{n:02d}"` / `f"{n:04d}"`. -/
def padNum (width : Nat) (n : Nat) : String :=
  let s := toString n
  let l := s.length
  if l < width then String.mk (List.replicate (width - l) '0') ++ s else s

/-! ## Time-control classification (`ChessComClient._is_matching_time_control`)

Embedding of `utils/api_clients.py` lines 78-165.  The result is
`Option Bool`: `none` models the `IndexError` that the source raises (the
quote-split indexing at line 129 sits outside the `try`) when the tag line holds
no quote character; `some b` is the Boolean the source returns. -/

/-- `ChessComClient.TIME_CONTROL_MAPPING` (api_clients.py lines 13-19). -/
def TIME_CONTROL_MAPPING : List (String × List String) :=
  [("bullet", ["bullet"]),
   ("blitz", ["blitz"]),
   ("rapid", ["rapid"]),
   ("classical", ["daily", "standard"]),
   ("other", ["chess960", "bughouse", "kingofthehill", "threecheck", "crazyhouse"])]

/-- First-match lookup in an association list (Python `dict` access, SQL
primary-key lookup). -/
def alistFind {κ : Type} [DecidableEq κ] (k : κ) : List (κ × α) → Option α
  | [] => none
  | (k2, v) :: rest => if k2 = k then some v else alistFind k rest

/-- Replace the first binding of `k`, or append one (Python `dict`
assignment, SQL keyed `UPDATE`, file overwrite at a path). -/
def alistSet {κ : Type} [DecidableEq κ] (l : List (κ × α)) (k : κ) (v : α) :
    List (κ × α) :=
  match l with
  | [] => [(k, v)]
  | (k2, v2) :: rest =>
    if k2 = k then (k, v) :: rest else (k2, v2) :: alistSet rest k v

/-- Append `a` to the list bound to `k`, binding `[a]` if `k` is unbound
(the `games_by_date` accumulation pattern). -/
def alistPush {κ : Type} [DecidableEq κ] (l : List (κ × List α)) (k : κ) (a : α) :
    List (κ × List α) :=
  match l with
  | [] => [(k, [a])]
  | (k2, vs) :: rest =>
    if k2 = k then (k2, vs ++ [a]) :: rest else (k2, vs) :: alistPush rest k a

/-- The final matching loop of `_is_matching_time_control`
(api_clients.py lines 156-163): the determined `game_type` against each
requested category, directly or through `TIME_CONTROL_MAPPING`. -/
def matchesRequested (gameType : String) (timeControls : List String) : Bool :=
  timeControls.any (fun requested =>
    requested = gameType ||
      (match alistFind requested TIME_CONTROL_MAPPING with
       | some alts => alts.contains gameType
       | none => false))

/-- Numeric thresholds of api_clients.py lines 143-150. -/
def categorizeBaseTime (base : Int) : String :=
  if base < 180 then "bullet"
  else if base < 600 then "blitz"
  else if base < 1800 then "rapid"
  else "classical"

/-- Event-label keyword scan (api_clients.py lines 113-124), applied to the
lowercased `[Event ...]` line. -/
def gameTypeFromEventLine (eventLine : String) : Option String :=
  let el := pyLower eventLine
  if strContains el "bullet" then some "bullet"
  else if strContains el "blitz" then some "blitz"
  else if strContains el "rapid" then some "rapid"
  else if strContains el "classical" || strContains el "standard" then some "classical"
  else if strContains el "daily" then some "classical"
  else none

/-- Tag-value parse of api_clients.py lines 131-153: `none` models the
`except: pass` leaving `game_type` unset. -/
def gameTypeFromTagValue (v : String) : Option String :=
  if strContains v "+" then
    match pyInt ((pySplit '+' v).headD "") with
    | none => none
    | some base => some (categorizeBaseTime base)
  else if strContains v "/" then some "classical"
  else
    match pyInt v with
    | none => none
    | some base => some (categorizeBaseTime base)

/-- `ChessComClient._is_matching_time_control` (api_clients.py lines 78-165).
`timeControls = none` models the Python argument `None`; the falsy check at
line 89 also accepts the empty list. -/
def isMatchingTimeControl (pgn : String) (timeControls : Option (List String)) :
    Option Bool :=
  match timeControls with
  | none => some true
  | some [] => some true
  | some tcs =>
    let lines := pySplit '\n' pgn
    match lines.find? (fun l => strContains l "[TimeControl") with
    | none => some false
    | some tcLine =>
      let eventLine := lines.find? (fun l => strContains l "[Event")
      let eventType : Option String :=
        match eventLine with
        | none => none
        | some e => gameTypeFromEventLine e
      match eventType with
      | some gt => some (matchesRequested gt tcs)
      | none =>
        match (pySplit '"' tcLine)[1]? with
        | none => none
        | some v =>
          match gameTypeFromTagValue v with
          | some gt => some (matchesRequested gt tcs)
          | none => some false

/-! ## Games and PGN text (python-chess library boundary)

`chess.pgn.read_game` and `chess.pgn.StringExporter` are external library
code (not part of this repository), so they are modelled at their interface
boundary: a game is its ordered header list plus move text, a PGN text is
either the canonical serialization of a game or a malformed string, parsing
inverts serialization and fails exactly on malformed text.  Equality of
`PgnText` values models byte-identity of the serialized strings, and
`renderPgn` recovers the raw character stream that the clients scan for tag
lines. -/

/-- One parsed game: ordered PGN headers plus move text. -/
structure Game where
  headers : List (String × String)
  movetext : String
  deriving DecidableEq

/-- PGN text at the library boundary: canonical game text or malformed
input that `read_game` rejects. -/
inductive PgnText where
  | game (g : Game)
  | malformed (raw : String)
  deriving DecidableEq

/-- `chess.pgn.read_game`: parses canonical text back to its game, `none`
on malformed input. -/
def readGame : PgnText → Option Game
  | .game g => some g
  | .malformed _ => none

/-- `game.accept(chess.pgn.StringExporter())`: canonical serialization. -/
def exportGame (g : Game) : PgnText := .game g

/-- The raw character stream of a PGN text: tag-pair lines, a blank line,
then the move text.  The tag-line scanning clients read this form. -/
def renderPgn : PgnText → String
  | .malformed raw => raw
  | .game g =>
    String.intercalate "\n"
      (g.headers.map (fun kv => "[" ++ kv.1 ++ " \"" ++ kv.2 ++ "\"]")) ++
      "\n\n" ++ g.movetext

/-- `headers.get(key, "")` on a python-chess `Headers` mapping. -/
def getHeader (hs : List (String × String)) (key : String) : String :=
  match alistFind key hs with
  | some v => v
  | none => ""

/-- `headers[key] = value` on a python-chess `Headers` mapping: replace the
binding of `key` in place, or append a new one. -/
def setHeader (hs : List (String × String)) (key value : String) :
    List (String × String) :=
  alistSet hs key value

/-! ## ChessCom client (`ChessComClient`, api_clients.py lines 9-279)

The HTTP layer is modelled by explicit response values.  `_make_request`
(lines 31-76) turns them into either a parsed archives list or a raised
exception; the 429 branch retries on the next response in the chain, which
the recursive constructor `rateLimited` carries. -/

/-- One HTTP outcome for a request, as `_make_request` distinguishes them. -/
inductive HttpResponse (α : Type) where
  | ok (body : α)
  | status404
  | status403
  | rateLimited (retryAfter : Nat) (next : HttpResponse α)
  | otherHttpError (msg : String)
  | otherException (msg : String)

/-- A response that is not a success: the cases `_make_request` either
converts to an empty result (404, 403, unexpected exception) or raises on
(other HTTP errors), looking through rate-limit retries. -/
def HttpResponse.isFailure {α : Type} : HttpResponse α → Bool
  | .ok _ => false
  | .status404 => true
  | .status403 => true
  | .rateLimited _ next => next.isFailure
  | .otherHttpError _ => true
  | .otherException _ => true

/-- `ChessComClient._make_request` for the archives endpoint
(api_clients.py lines 31-76): 404/403 and non-HTTP exceptions yield the
empty archives list, 429 sleeps and retries, any other HTTP error raises
(`Except.error`). -/
def chessComMakeRequest : HttpResponse (List String) → Except String (List String)
  | .ok body => .ok body
  | .status404 => .ok []
  | .status403 => .ok []
  | .rateLimited _ next => chessComMakeRequest next
  | .otherHttpError msg => .error ("Chess.com API error: " ++ msg)
  | .otherException _ => .ok []

/-- The remote service as seen by one `get_player_games` call: the response
to the archives request, and per archive URL either the monthly games list
(each JSON game object carries an optional `pgn` field) or `none` for a
request that raises. -/
structure ChessComNet where
  archivesResponse : HttpResponse (List String)
  monthData : String → Option (List (Option PgnText))

/-- The per-archive inner loop of `get_player_games` (api_clients.py lines
266-272): keep each game that has a `pgn` field and matches the filter.  A
`none` from `isMatchingTimeControl` models the `IndexError` escaping the
filter, which aborts the rest of that archive (caught by the per-archive
`except` at line 275). -/
def filterArchiveGames (timeControls : Option (List String)) :
    List (Option PgnText) → List PgnText
  | [] => []
  | none :: rest => filterArchiveGames timeControls rest
  | some pgn :: rest =>
    match isMatchingTimeControl (renderPgn pgn) timeControls with
    | none => []
    | some true => pgn :: filterArchiveGames timeControls rest
    | some false => filterArchiveGames timeControls rest

/-- `archive.split("/")[-2:][0]` (api_clients.py line 249): the
second-to-last path segment of an archive URL. -/
def archiveSortSegment (url : String) : String :=
  let parts := pySplit '/' url
  (parts.drop (parts.length - 2)).headD ""

/-- A resolved calendar instant; `get_player_games` only reads year and
month of `start_date`/`end_date` when filtering archives. -/
structure PyDateTime where
  year : Nat
  month : Nat
  deriving DecidableEq

/-- `f"{d.year:04d}/{d.month:02d}"` (api_clients.py lines 244-245). -/
def fmtYearSlashMonth (d : PyDateTime) : String :=
  padNum 4 d.year ++ "/" ++ padNum 2 d.month

/-- `ChessComClient.get_player_games` (api_clients.py lines 167-279) for the
four bounded time periods.  `startDate`/`endDate` are the window endpoints
the source derives from `datetime.now()` and the `time_period` string
(lines 187-197); the ambient clock stays outside the embedding.  Note that
the source never reads `maxGames` in this function.  The archive filter
(lines 247-250) compares the second-to-last URL segment against the
`"YYYY/MM"` strings; per-archive failures (`monthData = none`) are skipped
by the `except: continue` at lines 275-277. -/
def chessComGetPlayerGames (startDate endDate : PyDateTime) (net : ChessComNet)
    (maxGames : Nat) (timeControls : Option (List String)) : List PgnText :=
  match chessComMakeRequest net.archivesResponse with
  | .error _ => []
  | .ok archives =>
    let startYearMonth := fmtYearSlashMonth startDate
    let endYearMonth := fmtYearSlashMonth endDate
    let filteredArchives := archives.filter (fun a =>
      strLe startYearMonth (archiveSortSegment a) &&
      strLe (archiveSortSegment a) endYearMonth)
    filteredArchives.foldl (fun allGames url =>
      match net.monthData url with
      | none => allGames
      | some games => allGames ++ filterArchiveGames timeControls games) []

/-! ## Game normalizer and roster validation (`utils/data_processor.py`) -/

/-- The roster DataFrame as `validate_player_data` observes it: its column
names and the values of the `fide_id` column. -/
structure PlayerDataFrame where
  columns : List String
  fideIds : List String
  deriving DecidableEq

/-- `df["fide_id"].duplicated().any()`: some value occurs twice. -/
def hasDuplicate : List String → Bool
  | [] => false
  | x :: xs => decide (x ∈ xs) || hasDuplicate xs

/-- `validate_player_data` (data_processor.py lines 6-34).  The trailing
`astype(str)` coercion happens after every check and does not affect the
returned pair.  Message texts abbreviate the quoting used by the source. -/
def validatePlayerData (df : PlayerDataFrame) : Bool × String :=
  if "fide_id" ∉ df.columns then (false, "Missing required column: fide_id")
  else if "name" ∉ df.columns then (false, "Missing required column: name")
  else if "chesscom_username" ∉ df.columns ∧ "lichess_username" ∉ df.columns then
    (false, "DataFrame must contain at least one of chesscom_username or lichess_username")
  else if hasDuplicate df.fideIds then (false, "DataFrame contains duplicate FIDE IDs")
  else (true, "Validation successful")

/-- The per-game header stamping of `process_pgn_data`
(data_processor.py lines 65-87): set `Source`, then attach the FIDE id to
whichever side has a name containing `player_name` (Python `in`). -/
def stampGame (platform playerName fideId : String) (g : Game) : Game :=
  let hs := setHeader g.headers "Source" platform
  let whitePlayer := getHeader hs "White"
  let blackPlayer := getHeader hs "Black"
  let hs :=
    if platform = "chess.com" then
      if strContains whitePlayer playerName then setHeader hs "WhiteFideId" fideId
      else if strContains blackPlayer playerName then setHeader hs "BlackFideId" fideId
      else hs
    else if platform = "lichess" then
      if strContains whitePlayer playerName then setHeader hs "WhiteFideId" fideId
      else if strContains blackPlayer playerName then setHeader hs "BlackFideId" fideId
      else hs
    else hs
  { g with headers := hs }

/-- `process_pgn_data` (data_processor.py lines 36-97): parse each entry,
drop the unparseable ones, stamp the derived headers, re-serialize. -/
def processPgnData (pgnList : List PgnText) (platform playerName fideId : String) :
    List PgnText :=
  match pgnList with
  | [] => []
  | p :: rest =>
    match readGame p with
    | none => processPgnData rest platform playerName fideId
    | some g =>
      exportGame (stampGame platform playerName fideId g) ::
        processPgnData rest platform playerName fideId

/-- `extract_game_metadata` (data_processor.py lines 99-137): the flat
attribute list built from the headers of a parsed game; `[]` models the empty
dict returned for unparseable input. -/
def extractGameMetadata (p : PgnText) : List (String × String) :=
  match readGame p with
  | none => []
  | some g =>
    [("event", getHeader g.headers "Event"),
     ("date", getHeader g.headers "Date"),
     ("white", getHeader g.headers "White"),
     ("black", getHeader g.headers "Black"),
     ("result", getHeader g.headers "Result"),
     ("white_elo", getHeader g.headers "WhiteElo"),
     ("black_elo", getHeader g.headers "BlackElo"),
     ("time_control", getHeader g.headers "TimeControl"),
     ("termination", getHeader g.headers "Termination"),
     ("source", getHeader g.headers "Source"),
     ("white_fide_id", getHeader g.headers "WhiteFideId"),
     ("black_fide_id", getHeader g.headers "BlackFideId")]

/-! ## Archive store (`utils/file_manager.py`)

The durable file tree is the state: `players` holds each
`player_info.json` keyed by FIDE id, `buckets` holds each
`{year}-{month}.pgn` file keyed by (fide id, platform, year-month), its
value the sequence of game texts written to it. -/

/-- One platform entry of `player_info.json`. -/
structure PlatformSummary where
  last_update : String
  total_games : Nat
  is_active : Bool
  deriving DecidableEq

/-- One `player_info.json` file (its `fide_id` field is the map key). -/
structure PlayerInfo where
  name : String
  platforms : List (String × PlatformSummary)
  deriving DecidableEq

/-- The archive file tree. -/
structure ArchiveFS where
  players : List (String × PlayerInfo)
  buckets : List ((String × String × String) × List PgnText)
  deriving DecidableEq

/-- The current collection date, `datetime.datetime.now()` in
file_manager.py. -/
structure Today where
  year : Nat
  month : Nat
  day : Nat
  deriving DecidableEq

/-- `get_player_directory` (file_manager.py lines 28-61): creates the
per-player `player_info.json` (empty platforms map) when the player directory
does not exist yet; directory creation itself has no further observable
state. -/
def getPlayerDirectory (fs : ArchiveFS) (playerName fideId : String) : ArchiveFS :=
  match alistFind fideId fs.players with
  | some _ => fs
  | none =>
    { fs with players := fs.players ++ [(fideId, { name := playerName, platforms := [] })] }

/-- `f"{today.year}.{today.month:02d}.{today.day:02d}"`
(file_manager.py line 108). -/
def todayDots (t : Today) : String :=
  toString t.year ++ "." ++ padNum 2 t.month ++ "." ++ padNum 2 t.day

/-- `f"{today.year}-{today.month:02d}"` (file_manager.py lines 124, 133). -/
def todayYearMonth (t : Today) : String :=
  toString t.year ++ "-" ++ padNum 2 t.month

/-- The year-month key one parsed game is grouped under (file_manager.py
lines 103-137): the `Date` header with dots replaced by dashes, the current
date when it is empty or partial, then `split(".")` — which, for a header
date that contained dots, yields a single part, so the game falls back to
the current year-month. -/
def bucketKeyForGame (today : Today) (g : Game) : String :=
  let dateStr := pyReplaceChar '.' '-' (getHeader g.headers "Date")
  let dateStr := if dateStr = "" || strContains dateStr "?" then todayDots today else dateStr
  let parts := pySplit '.' dateStr
  if 2 ≤ parts.length then parts.headD "" ++ "-" ++ (parts[1]?.getD "")
  else todayYearMonth today

/-- The `games_by_date` grouping loop (file_manager.py lines 94-141):
unparseable entries are skipped, parsed ones are appended to their
year-month group in insertion order. -/
def groupGamesByDate (today : Today) (pgnList : List PgnText) :
    List (String × List PgnText) :=
  pgnList.foldl (fun acc p =>
    match readGame p with
    | none => acc
    | some g => alistPush acc (bucketKeyForGame today g) p) []

/-- The bucket-writing loop (file_manager.py lines 144-165): each group
whose key splits as `year-month` replaces the entire prior
content of that bucket file; `total_saved` counts every game written.  A key that does not
split into exactly two parts raises `ValueError`, caught by the
per-group `except: continue`. -/
def writeBuckets (groups : List (String × List PgnText)) (platform fideId : String)
    (fs : ArchiveFS) : Nat × ArchiveFS :=
  groups.foldl (fun acc kv =>
    match pySplit '-' kv.1 with
    | [year, month] =>
      (acc.1 + kv.2.length,
       { acc.2 with
          buckets := alistSet acc.2.buckets (fideId, platform, year ++ "-" ++ month) kv.2 })
    | _ => acc) (0, fs)

/-- The `player_info.json` update (file_manager.py lines 167-195):
`last_update` and `is_active` stamped, `total_games` created as the saved
count or incremented by it when the account is active or games were saved.
A missing file raises, caught by the `except` at line 194, leaving the
summary untouched. -/
def updateSummary (nowStr platform fideId : String) (isActive : Bool)
    (totalSaved : Nat) (fs : ArchiveFS) : ArchiveFS :=
  match alistFind fideId fs.players with
  | none => fs
  | some info =>
    let platforms :=
      match alistFind platform info.platforms with
      | none =>
        info.platforms ++
          [(platform,
            { last_update := nowStr, total_games := totalSaved, is_active := isActive })]
      | some ps =>
        alistSet info.platforms platform
          { last_update := nowStr,
            is_active := isActive,
            total_games :=
              if isActive || 0 < totalSaved then ps.total_games + totalSaved
              else ps.total_games }
    { fs with players := alistSet fs.players fideId { info with platforms := platforms } }

/-- `save_pgn_files` (file_manager.py lines 63-197).  `nowStr` is the
`datetime.now().strftime("%Y-%m-%d %H:%M:%S")` stamp.  The two early
returns at lines 83-85 and 90-92 skip everything (including the summary
update) for an empty game list. -/
def savePgnFiles (today : Today) (nowStr : String) (pgnList : List PgnText)
    (platform playerName fideId : String) (isActive : Bool) (fs : ArchiveFS) :
    Nat × ArchiveFS :=
  if pgnList.isEmpty && isActive then (0, fs)
  else
    let fs := getPlayerDirectory fs playerName fideId
    if pgnList.isEmpty && !isActive then (0, fs)
    else
      let groups := groupGamesByDate today pgnList
      let written := writeBuckets groups platform fideId fs
      (written.1, updateSummary nowStr platform fideId isActive written.1 written.2)

/-- The summary record `save_pgn_files` maintains for one
(fide id, platform): the platform entry of the
`player_info.json` of that player. -/
def summaryOf (fs : ArchiveFS) (fideId platform : String) : Option PlatformSummary :=
  (alistFind fideId fs.players).bind (fun info => alistFind platform info.platforms)

/-- The `total_games` figure recorded before an attempt (0 when the player
or platform has no summary yet). -/
def priorTotal (fs : ArchiveFS) (fideId platform : String) : Nat :=
  match summaryOf fs fideId platform with
  | some s => s.total_games
  | none => 0

/-! ## Metadata store (`utils/db_manager.py`)

The SQLite tables, keyed by their unique constraints:
`player_accounts` by (`fide_id`,`platform`), `collection_logs` append-only,
`scheduled_tasks` by primary key `job_id`. -/

/-- One `player_accounts` row (without its key columns). -/
structure AccountRow where
  username : String
  is_active : Bool
  last_update : Option String
  total_games : Nat
  deriving DecidableEq

/-- One `collection_logs` row. -/
structure LogRow where
  fide_id : String
  platform : String
  time_period : String
  games_count : Nat
  time_controls : Option (List String)
  status : String
  error_message : Option String
  timestamp : String
  deriving DecidableEq

/-- One `scheduled_tasks` row (without its `job_id` key). -/
structure TaskRow where
  fide_id : String
  platforms : List String
  day_of_month : Nat
  hour : Nat
  time_controls : Option (List String)
  max_games : Nat
  is_active : Bool
  deriving DecidableEq

/-- The relational store. -/
structure Database where
  accounts : List ((String × String) × AccountRow)
  logs : List LogRow
  tasks : List (String × TaskRow)
  deriving DecidableEq

/-- `json.dumps(x) if x else None` (db_manager.py lines 256-259, 314):
`None` and the empty list both store NULL. -/
def jsonListOrNull (l : Option (List String)) : Option (List String) :=
  match l with
  | some tcs => if tcs.isEmpty then none else some tcs
  | none => none

/-- `DatabaseManager.log_collection` (db_manager.py lines 224-281): append
one immutable log row, then update the matching `player_accounts` row —
`is_active` becomes `status == "success"`, `last_update` is stamped and
`total_games` grows by `games_count`.  With no matching account row the
`UPDATE` touches nothing. -/
def logCollection (timestamp fideId platform timePeriod : String) (gamesCount : Nat)
    (timeControls : Option (List String)) (status : String)
    (errorMessage : Option String) (db : Database) : Database :=
  let entry : LogRow :=
    { fide_id := fideId, platform := platform, time_period := timePeriod,
      games_count := gamesCount, time_controls := jsonListOrNull timeControls,
      status := status, error_message := errorMessage, timestamp := timestamp }
  let accounts :=
    match alistFind (fideId, platform) db.accounts with
    | none => db.accounts
    | some row =>
      alistSet db.accounts (fideId, platform)
        { row with
            is_active := status = "success",
            last_update := some timestamp,
            total_games := row.total_games + gamesCount }
  { db with logs := db.logs ++ [entry], accounts := accounts }

/-- `DatabaseManager.save_scheduled_task` (db_manager.py lines 283-342):
upsert by `job_id`, always storing `is_active = 1`. -/
def saveScheduledTask (jobId fideId : String) (platforms : List String)
    (dayOfMonth hour : Nat) (timeControls : Option (List String)) (maxGames : Nat)
    (db : Database) : Database :=
  let row : TaskRow :=
    { fide_id := fideId, platforms := platforms, day_of_month := dayOfMonth,
      hour := hour, time_controls := jsonListOrNull timeControls,
      max_games := maxGames, is_active := true }
  match alistFind jobId db.tasks with
  | some _ => { db with tasks := alistSet db.tasks jobId row }
  | none => { db with tasks := db.tasks ++ [(jobId, row)] }

/-! ## Recurrence scheduler (`utils/scheduler.py`) -/

/-- One registered APScheduler cron trigger. -/
structure SchedJob where
  day : Nat
  hour : Nat
  deriving DecidableEq

/-- `schedule_scraping_task` (scheduler.py lines 12-167), its registration
effects: the job id is derived from the FIDE id (line 151), `add_job` with
`replace_existing=True` (lines 145-154) replaces any trigger under that id,
and the task row is upserted in the database (lines 157-165).  Returns the
job id with the new trigger set and store. -/
def scheduleScrapingTask (sched : List (String × SchedJob)) (db : Database)
    (fideId : String) (platforms : List String) (dayOfMonth hour : Nat)
    (timeControls : Option (List String)) (maxGames : Nat) :
    String × List (String × SchedJob) × Database :=
  let jobId := "collection_" ++ fideId
  let sched := alistSet sched jobId { day := dayOfMonth, hour := hour }
  let db := saveScheduledTask jobId fideId platforms dayOfMonth hour timeControls maxGames db
  (jobId, sched, db)

/-! ## Manual collection orchestration (`app.py` lines 244-288, chess.com
branch) -/

/-- The chess.com branch of the manual-collection loop given the game list
the adapter returned (app.py lines 246-274): activity is decided by the
fetched count, games are normalized and persisted, and the attempt is
logged with `games_count = len(games)` — the raw fetched count. -/
def manualCollectChessCom (today : Today) (nowStr timePeriod : String)
    (games : List PgnText) (player fideId : String)
    (timeControls : Option (List String)) (fs : ArchiveFS) (db : Database) :
    ArchiveFS × Database :=
  let isActive := !games.isEmpty
  if !games.isEmpty then
    let processed := processPgnData games "chess.com" player fideId
    let fs := (savePgnFiles today nowStr processed "chess.com" player fideId isActive fs).2
    let db := logCollection nowStr fideId "chess.com" timePeriod games.length
      timeControls (if isActive then "success" else "inactive") none db
    (fs, db)
  else
    let fs := (savePgnFiles today nowStr [] "chess.com" player fideId isActive fs).2
    let db := logCollection nowStr fideId "chess.com" timePeriod 0
      timeControls (if isActive then "success" else "inactive") none db
    (fs, db)

/-- One full manual chess.com collection cycle: the client fetch composed
with the collection branch (app.py lines 244-288). -/
def manualChessComCycle (startDate endDate : PyDateTime) (today : Today)
    (nowStr : String) (net : ChessComNet) (timePeriod : String) (maxGames : Nat)
    (player fideId : String) (timeControls : Option (List String))
    (fs : ArchiveFS) (db : Database) : ArchiveFS × Database :=
  let games := chessComGetPlayerGames startDate endDate net maxGames timeControls
  manualCollectChessCom today nowStr timePeriod games player fideId timeControls fs db

/-! ## Concrete instances

Sample games, network transcripts and store states used to evaluate the
embedded operations at specific inputs. -/

/-- A raw chess.com game with time-control tag `600+0` and a neutral event
label. -/
def samplePgn600 : String :=
  "[Event \"Live Chess\"]\n[Site \"Chess.com\"]\n[TimeControl \"600+0\"]\n\n1. e4 e5 1-0"

/-- A raw game with time-control tag `60+0`. -/
def samplePgn60 : String :=
  "[Event \"Live Chess\"]\n[Site \"Chess.com\"]\n[TimeControl \"60+0\"]\n\n1. e4 e5 1-0"

/-- A raw game with time-control tag `1800+0`. -/
def samplePgn1800 : String :=
  "[Event \"Live Chess\"]\n[Site \"Chess.com\"]\n[TimeControl \"1800+0\"]\n\n1. e4 e5 1-0"

/-- A raw game with no time-control tag whose event label contains
"Bullet". -/
def samplePgnNoTag : String :=
  "[Event \"Bullet Arena\"]\n[Site \"Chess.com\"]\n\n1. e4 e5 1-0"

/-- A raw game whose event label says "Rapid" while its time-control tag
says 60 seconds. -/
def samplePgnEventRapid : String :=
  "[Event \"Rapid Arena\"]\n[Site \"Chess.com\"]\n[TimeControl \"60+0\"]\n\n1. e4 e5 1-0"

/-- The collection instant used by the concrete runs. -/
def sampleToday : Today := ⟨2026, 1, 15⟩

/-- Its `strftime("%Y-%m-%d %H:%M:%S")` stamp. -/
def sampleNow : String := "2026-01-15 10:00:00"

/-- A parsed game played by Alice Smith as white. -/
def sampleGameA : Game :=
  ⟨[("Event", "Live Chess"), ("Site", "Chess.com"), ("Date", "2026.01.10"),
    ("White", "Alice Smith"), ("Black", "Bob"), ("Result", "1-0"),
    ("TimeControl", "600+0")], "1. e4 e5 1-0"⟩

/-- A second parsed game of the same player. -/
def sampleGameB : Game :=
  ⟨[("Event", "Live Chess"), ("Site", "Chess.com"), ("Date", "2026.01.11"),
    ("White", "Alice Smith"), ("Black", "Carol"), ("Result", "0-1"),
    ("TimeControl", "300+2")], "1. d4 d5 0-1"⟩

/-- A third parsed game, Alice Smith as black. -/
def sampleGameC : Game :=
  ⟨[("Event", "Live Chess"), ("Site", "Chess.com"), ("Date", "2026.01.12"),
    ("White", "Dan"), ("Black", "Alice Smith"), ("Result", "1/2-1/2"),
    ("TimeControl", "600+0")], "1. c4 e5 1/2-1/2"⟩

/-- An adapter return of three valid games and one malformed entry. -/
def sampleFetch : List PgnText :=
  [.game sampleGameA, .game sampleGameB, .game sampleGameC, .malformed "junk data"]

/-- An archive tree holding a prior summary for Alice Smith on
chess.com. -/
def sampleFS : ArchiveFS :=
  ⟨[("123", ⟨"Alice Smith",
      [("chess.com", ⟨"2025-12-01 00:00:00", 10, true⟩)]⟩)], []⟩

/-- A metadata store holding her account row and no logs or tasks. -/
def sampleDB : Database :=
  ⟨[(("123", "chess.com"), ⟨"alice", true, some "2025-12-01 00:00:00", 10⟩)], [], []⟩

/-- The manual chess.com collection branch run on `sampleFetch`. -/
def sampleManualRun : ArchiveFS × Database :=
  manualCollectChessCom sampleToday sampleNow "Last month" sampleFetch
    "Alice Smith" "123" none sampleFS sampleDB

/-- The monthly archive location returned for the sample account. -/
def sampleArchiveUrl : String :=
  "https://api.chess.com/pub/player/alice/games/2026/01"

/-- A remote service exposing one archive of 12 matching games. -/
def sampleNetTwelve : ChessComNet :=
  ⟨.ok [sampleArchiveUrl],
   fun url =>
     if url = sampleArchiveUrl then
       some (List.replicate 12 (some (PgnText.game sampleGameA)))
     else none⟩

/-- A remote service whose archives request fails at the transport level
with a non-404/403 HTTP error. -/
def sampleNetBroken : ChessComNet :=
  ⟨.otherHttpError "500 Server Error", fun _ => none⟩

/-- The full manual chess.com cycle against the broken transport. -/
def sampleBrokenRun : ArchiveFS × Database :=
  manualChessComCycle ⟨2025, 12⟩ ⟨2026, 1⟩ sampleToday sampleNow sampleNetBroken
    "Last month" 0 "Alice Smith" "123" none sampleFS sampleDB

/-- A normalized game (source and FIDE-id headers stamped). -/
def sampleNormalizedGame : Game :=
  ⟨[("Event", "Live Chess"), ("Site", "Chess.com"), ("Date", "2026.01.10"),
    ("White", "Alice Smith"), ("Black", "Bob"), ("Result", "1-0"),
    ("WhiteElo", "2400"), ("BlackElo", "2300"), ("TimeControl", "600+0"),
    ("Termination", "Normal"), ("Source", "chess.com"),
    ("WhiteFideId", "123")], "1. e4 e5 1-0"⟩

/-- The attribute names `extract_game_metadata` emits, in order. -/
def metadataKeys : List String :=
  ["event", "date", "white", "black", "result", "white_elo", "black_elo",
   "time_control", "termination", "source", "white_fide_id", "black_fide_id"]

/-! ## Association-list lemmas -/

section AlistLemmas

variable {κ : Type} [DecidableEq κ] {α : Type}

theorem alistFind_alistSet_same (l : List (κ × α)) (k : κ) (v : α) :
    alistFind k (alistSet l k v) = some v := by
  induction l with
  | nil => simp [alistFind, alistSet]
  | cons kv rest ih =>
    by_cases h : kv.1 = k
    · simp [alistSet, alistFind, h]
    · simp [alistSet, alistFind, h, ih]

theorem alistFind_alistSet_ne (l : List (κ × α)) (k k2 : κ) (v : α) (h : k2 ≠ k) :
    alistFind k2 (alistSet l k v) = alistFind k2 l := by
  induction l with
  | nil => simp [alistFind, alistSet, Ne.symm h]
  | cons kv rest ih =>
    by_cases hk : kv.1 = k
    · simp [alistSet, alistFind, hk, Ne.symm h, ih]
    · by_cases hk2 : kv.1 = k2
      · simp [alistSet, alistFind, hk, hk2, h]
      · simp [alistSet, alistFind, hk, hk2, ih]

theorem alistSet_alistSet_same (l : List (κ × α)) (k : κ) (v w : α) :
    alistSet (alistSet l k v) k w = alistSet l k w := by
  induction l with
  | nil => simp [alistSet]
  | cons kv rest ih =>
    by_cases h : kv.1 = k
    · simp [alistSet, h]
    · simp [alistSet, h, ih]

theorem alistSet_of_find_same (l : List (κ × α)) (k : κ) (v : α)
    (h : alistFind k l = some v) : alistSet l k v = l := by
  induction l with
  | nil => simp [alistFind] at h
  | cons kv rest ih =>
    obtain ⟨k1, v1⟩ := kv
    by_cases hk : k1 = k
    · subst hk
      simp [alistFind] at h
      simp [alistSet, h]
    · simp only [alistFind, if_neg hk] at h
      simp [alistSet, hk, ih h]

theorem alistSet_of_find_none (l : List (κ × α)) (k : κ) (v : α)
    (h : alistFind k l = none) : alistSet l k v = l ++ [(k, v)] := by
  induction l with
  | nil => simp [alistSet]
  | cons kv rest ih =>
    by_cases hk : kv.1 = k
    · simp [alistFind, hk] at h
    · simp [alistFind, hk] at h
      simp [alistSet, hk, ih h]

theorem alistFind_append_of_find_none (l l2 : List (κ × α)) (k : κ)
    (h : alistFind k l = none) : alistFind k (l ++ l2) = alistFind k l2 := by
  induction l with
  | nil => simp
  | cons kv rest ih =>
    by_cases hk : kv.1 = k
    · simp [alistFind, hk] at h
    · simp [alistFind, hk] at h
      simp [alistFind, hk, ih h]

theorem alistFind_eq_none_of_not_mem (l : List (κ × α)) (k : κ)
    (h : k ∉ l.map Prod.fst) : alistFind k l = none := by
  induction l with
  | nil => simp [alistFind]
  | cons kv rest ih =>
    simp only [List.map_cons, List.mem_cons] at h
    push_neg at h
    simp [alistFind, Ne.symm h.1, ih h.2]

theorem alistSet_mem_cases (l : List (κ × α)) (k : κ) (v : α) (p : κ × α)
    (hp : p ∈ alistSet l k v) : p ∈ l ∨ p = (k, v) := by
  induction l with
  | nil => simpa [alistSet] using hp
  | cons kv rest ih =>
    by_cases hk : kv.1 = k
    · simp only [alistSet, if_pos hk, List.mem_cons] at hp
      rcases hp with hp | hp
      · exact Or.inr hp
      · exact Or.inl (List.mem_cons_of_mem _ hp)
    · simp only [alistSet, if_neg hk, List.mem_cons] at hp
      rcases hp with hp | hp
      · exact Or.inl (hp ▸ List.mem_cons_self _ _)
      · rcases ih hp with hc | hc
        · exact Or.inl (List.mem_cons_of_mem _ hc)
        · exact Or.inr hc

theorem alistSet_map_fst_nodup (l : List (κ × α)) (k : κ) (v : α)
    (h : (l.map Prod.fst).Nodup) : ((alistSet l k v).map Prod.fst).Nodup := by
  induction l with
  | nil => simp [alistSet]
  | cons kv rest ih =>
    simp only [List.map_cons, List.nodup_cons] at h
    by_cases hk : kv.1 = k
    · simp only [alistSet, if_pos hk, List.map_cons, List.nodup_cons]
      exact ⟨hk ▸ h.1, h.2⟩
    · have hrest := ih h.2
      simp only [alistSet, if_neg hk, List.map_cons, List.nodup_cons]
      refine ⟨?_, hrest⟩
      intro hmem
      rcases List.mem_map.mp hmem with ⟨p, hp, hfst⟩
      rcases alistSet_mem_cases rest k v p hp with hcase | hcase
      · exact h.1 (List.mem_map.mpr ⟨p, hcase, hfst⟩)
      · subst hcase
        exact hk hfst.symm

end AlistLemmas

/-! ## Normalizer lemmas -/

theorem getHeader_setHeader_ne (hs : List (String × String)) (k k2 v : String)
    (h : k2 ≠ k) : getHeader (setHeader hs k v) k2 = getHeader hs k2 := by
  simp [getHeader, setHeader, alistFind_alistSet_ne hs k k2 v h]

/-- Stamping the derived headers twice with the same arguments is the same
as stamping once: the second pass reads the same `White`/`Black` values and
rewrites `Source` and the FIDE-id header to the values they already hold. -/
theorem stampGame_idem (p n f : String) (g : Game) :
    stampGame p n f (stampGame p n f g) = stampGame p n f g := by
  have hSW : ∀ (X : List (String × String)) v,
      getHeader (setHeader X "Source" v) "White" = getHeader X "White" :=
    fun X v => getHeader_setHeader_ne X "Source" "White" v (by decide)
  have hSB : ∀ (X : List (String × String)) v,
      getHeader (setHeader X "Source" v) "Black" = getHeader X "Black" :=
    fun X v => getHeader_setHeader_ne X "Source" "Black" v (by decide)
  have hWfW : ∀ (X : List (String × String)) v,
      getHeader (setHeader X "WhiteFideId" v) "White" = getHeader X "White" :=
    fun X v => getHeader_setHeader_ne X "WhiteFideId" "White" v (by decide)
  have hWfB : ∀ (X : List (String × String)) v,
      getHeader (setHeader X "WhiteFideId" v) "Black" = getHeader X "Black" :=
    fun X v => getHeader_setHeader_ne X "WhiteFideId" "Black" v (by decide)
  have hBfW : ∀ (X : List (String × String)) v,
      getHeader (setHeader X "BlackFideId" v) "White" = getHeader X "White" :=
    fun X v => getHeader_setHeader_ne X "BlackFideId" "White" v (by decide)
  have hBfB : ∀ (X : List (String × String)) v,
      getHeader (setHeader X "BlackFideId" v) "Black" = getHeader X "Black" :=
    fun X v => getHeader_setHeader_ne X "BlackFideId" "Black" v (by decide)
  have hfindS_Wf : ∀ (X : List (String × String)) v,
      alistFind "Source" (setHeader X "WhiteFideId" v) = alistFind "Source" X :=
    fun X v => alistFind_alistSet_ne X "WhiteFideId" "Source" v (by decide)
  have hfindS_Bf : ∀ (X : List (String × String)) v,
      alistFind "Source" (setHeader X "BlackFideId" v) = alistFind "Source" X :=
    fun X v => alistFind_alistSet_ne X "BlackFideId" "Source" v (by decide)
  have hfindWf_S : ∀ (X : List (String × String)) v,
      alistFind "WhiteFideId" (setHeader X "Source" v) = alistFind "WhiteFideId" X :=
    fun X v => alistFind_alistSet_ne X "Source" "WhiteFideId" v (by decide)
  have hfindBf_S : ∀ (X : List (String × String)) v,
      alistFind "BlackFideId" (setHeader X "Source" v) = alistFind "BlackFideId" X :=
    fun X v => alistFind_alistSet_ne X "Source" "BlackFideId" v (by decide)
  rcases eq_or_ne p "chess.com" with hp | hp
  · subst hp
    by_cases hw : strContains (getHeader g.headers "White") n = true
    · have hG : stampGame "chess.com" n f g =
          { g with headers :=
              setHeader (setHeader g.headers "Source" "chess.com") "WhiteFideId" f } := by
        simp [stampGame, hSW, hw]
      rw [hG]
      have hfind : alistFind "Source"
          (setHeader (setHeader g.headers "Source" "chess.com") "WhiteFideId" f) =
          some "chess.com" := by
        rw [hfindS_Wf]
        exact alistFind_alistSet_same g.headers "Source" "chess.com"
      have hsrc : setHeader (setHeader (setHeader g.headers "Source" "chess.com")
          "WhiteFideId" f) "Source" "chess.com" =
          setHeader (setHeader g.headers "Source" "chess.com") "WhiteFideId" f :=
        alistSet_of_find_same _ _ _ hfind
      have hwf : setHeader (setHeader (setHeader g.headers "Source" "chess.com")
          "WhiteFideId" f) "WhiteFideId" f =
          setHeader (setHeader g.headers "Source" "chess.com") "WhiteFideId" f :=
        alistSet_alistSet_same _ _ _ _
      simp [stampGame, hsrc, hwf, hSW, hWfW, hw]
    · by_cases hb : strContains (getHeader g.headers "Black") n = true
      · have hG : stampGame "chess.com" n f g =
            { g with headers :=
                setHeader (setHeader g.headers "Source" "chess.com") "BlackFideId" f } := by
          simp [stampGame, hSW, hSB, hw, hb]
        rw [hG]
        have hfind : alistFind "Source"
            (setHeader (setHeader g.headers "Source" "chess.com") "BlackFideId" f) =
            some "chess.com" := by
          rw [hfindS_Bf]
          exact alistFind_alistSet_same g.headers "Source" "chess.com"
        have hsrc : setHeader (setHeader (setHeader g.headers "Source" "chess.com")
            "BlackFideId" f) "Source" "chess.com" =
            setHeader (setHeader g.headers "Source" "chess.com") "BlackFideId" f :=
          alistSet_of_find_same _ _ _ hfind
        have hbf : setHeader (setHeader (setHeader g.headers "Source" "chess.com")
            "BlackFideId" f) "BlackFideId" f =
            setHeader (setHeader g.headers "Source" "chess.com") "BlackFideId" f :=
          alistSet_alistSet_same _ _ _ _
        simp [stampGame, hsrc, hbf, hSW, hSB, hBfW, hBfB, hw, hb]
      · have hG : stampGame "chess.com" n f g =
            { g with headers := setHeader g.headers "Source" "chess.com" } := by
          simp [stampGame, hSW, hSB, hw, hb]
        rw [hG]
        have hsrc : setHeader (setHeader g.headers "Source" "chess.com")
            "Source" "chess.com" = setHeader g.headers "Source" "chess.com" :=
          alistSet_alistSet_same _ _ _ _
        simp [stampGame, hsrc, hSW, hSB, hw, hb]
  rcases eq_or_ne p "lichess" with hq | hq
  · subst hq
    by_cases hw : strContains (getHeader g.headers "White") n = true
    · have hG : stampGame "lichess" n f g =
          { g with headers :=
              setHeader (setHeader g.headers "Source" "lichess") "WhiteFideId" f } := by
        simp [stampGame, hSW, hw]
      rw [hG]
      have hfind : alistFind "Source"
          (setHeader (setHeader g.headers "Source" "lichess") "WhiteFideId" f) =
          some "lichess" := by
        rw [hfindS_Wf]
        exact alistFind_alistSet_same g.headers "Source" "lichess"
      have hsrc : setHeader (setHeader (setHeader g.headers "Source" "lichess")
          "WhiteFideId" f) "Source" "lichess" =
          setHeader (setHeader g.headers "Source" "lichess") "WhiteFideId" f :=
        alistSet_of_find_same _ _ _ hfind
      have hwf : setHeader (setHeader (setHeader g.headers "Source" "lichess")
          "WhiteFideId" f) "WhiteFideId" f =
          setHeader (setHeader g.headers "Source" "lichess") "WhiteFideId" f :=
        alistSet_alistSet_same _ _ _ _
      simp [stampGame, hsrc, hwf, hSW, hWfW, hw]
    · by_cases hb : strContains (getHeader g.headers "Black") n = true
      · have hG : stampGame "lichess" n f g =
            { g with headers :=
                setHeader (setHeader g.headers "Source" "lichess") "BlackFideId" f } := by
          simp [stampGame, hSW, hSB, hw, hb]
        rw [hG]
        have hfind : alistFind "Source"
            (setHeader (setHeader g.headers "Source" "lichess") "BlackFideId" f) =
            some "lichess" := by
          rw [hfindS_Bf]
          exact alistFind_alistSet_same g.headers "Source" "lichess"
        have hsrc : setHeader (setHeader (setHeader g.headers "Source" "lichess")
            "BlackFideId" f) "Source" "lichess" =
            setHeader (setHeader g.headers "Source" "lichess") "BlackFideId" f :=
          alistSet_of_find_same _ _ _ hfind
        have hbf : setHeader (setHeader (setHeader g.headers "Source" "lichess")
            "BlackFideId" f) "BlackFideId" f =
            setHeader (setHeader g.headers "Source" "lichess") "BlackFideId" f :=
          alistSet_alistSet_same _ _ _ _
        simp [stampGame, hsrc, hbf, hSW, hSB, hBfW, hBfB, hw, hb]
      · have hG : stampGame "lichess" n f g =
            { g with headers := setHeader g.headers "Source" "lichess" } := by
          simp [stampGame, hSW, hSB, hw, hb]
        rw [hG]
        have hsrc : setHeader (setHeader g.headers "Source" "lichess")
            "Source" "lichess" = setHeader g.headers "Source" "lichess" :=
          alistSet_alistSet_same _ _ _ _
        simp [stampGame, hsrc, hSW, hSB, hw, hb]
  · have hG : stampGame p n f g =
        { g with headers := setHeader g.headers "Source" p } := by
      simp [stampGame, hp, hq]
    rw [hG]
    have hsrc : setHeader (setHeader g.headers "Source" p) "Source" p =
        setHeader g.headers "Source" p :=
      alistSet_alistSet_same _ _ _ _
    simp [stampGame, hp, hq, hsrc]

/-! ## Archive-store lemmas -/

theorem getPlayerDirectory_buckets (fs : ArchiveFS) (playerName fideId : String) :
    (getPlayerDirectory fs playerName fideId).buckets = fs.buckets := by
  unfold getPlayerDirectory
  cases alistFind fideId fs.players <;> rfl

theorem summaryOf_getPlayerDirectory (fs : ArchiveFS) (playerName fideId platform : String) :
    summaryOf (getPlayerDirectory fs playerName fideId) fideId platform =
      summaryOf fs fideId platform := by
  unfold getPlayerDirectory summaryOf
  cases h : alistFind fideId fs.players with
  | some info => simp [h]
  | none =>
    simp only [h]
    rw [alistFind_append_of_find_none fs.players _ fideId h]
    simp [alistFind]

theorem savePgnFiles_empty_buckets (today : Today) (nowStr platform playerName fideId : String)
    (isActive : Bool) (fs : ArchiveFS) :
    ((savePgnFiles today nowStr [] platform playerName fideId isActive fs).2).buckets =
      fs.buckets := by
  unfold savePgnFiles
  cases isActive with
  | true => rfl
  | false => simp [getPlayerDirectory_buckets]

theorem savePgnFiles_empty_summary (today : Today) (nowStr platform playerName fideId : String)
    (isActive : Bool) (fs : ArchiveFS) :
    summaryOf ((savePgnFiles today nowStr [] platform playerName fideId isActive fs).2)
        fideId platform = summaryOf fs fideId platform := by
  unfold savePgnFiles
  cases isActive with
  | true => rfl
  | false => simp [summaryOf_getPlayerDirectory]

theorem writeBuckets_players (groups : List (String × List PgnText))
    (platform fideId : String) (fs : ArchiveFS) :
    (writeBuckets groups platform fideId fs).2.players = fs.players := by
  suffices hgen : ∀ acc : Nat × ArchiveFS,
      (groups.foldl (fun acc kv =>
        match pySplit '-' kv.1 with
        | [year, month] =>
          (acc.1 + kv.2.length,
           { acc.2 with
              buckets :=
                alistSet acc.2.buckets (fideId, platform, year ++ "-" ++ month) kv.2 })
        | _ => acc) acc).2.players = acc.2.players by
    exact hgen (0, fs)
  induction groups with
  | nil => intro acc; rfl
  | cons kv rest ih =>
    intro acc
    simp only [List.foldl_cons]
    rcases hsp : pySplit '-' kv.1 with _ | ⟨y, _ | ⟨m, _ | ⟨z, zs⟩⟩⟩ <;>
      simp only [hsp] <;> rw [ih]

theorem summaryOf_updateSummary (nowStr platform fideId : String) (isActive : Bool)
    (n : Nat) (fs : ArchiveFS) (info : PlayerInfo)
    (h : alistFind fideId fs.players = some info) :
    summaryOf (updateSummary nowStr platform fideId isActive n fs) fideId platform =
      some ⟨nowStr,
        (match alistFind platform info.platforms with
         | some ps => if isActive || 0 < n then ps.total_games + n else ps.total_games
         | none => n),
        isActive⟩ := by
  cases hpl : alistFind platform info.platforms with
  | none =>
    simp only [updateSummary, summaryOf, h, hpl, alistFind_alistSet_same,
      Option.some_bind]
    rw [alistFind_append_of_find_none info.platforms _ platform hpl]
    simp [alistFind]
  | some ps =>
    simp only [updateSummary, summaryOf, h, hpl, alistFind_alistSet_same,
      Option.some_bind]

/-! ## Client failure lemmas -/

theorem chessComMakeRequest_of_failure (r : HttpResponse (List String))
    (h : r.isFailure = true) :
    chessComMakeRequest r = .ok [] ∨ ∃ m, chessComMakeRequest r = .error m := by
  induction r with
  | ok body => simp [HttpResponse.isFailure] at h
  | status404 => exact Or.inl rfl
  | status403 => exact Or.inl rfl
  | rateLimited retryAfter next ih =>
    simp only [HttpResponse.isFailure] at h
    simpa [chessComMakeRequest] using ih h
  | otherHttpError msg => exact Or.inr ⟨_, rfl⟩
  | otherException msg => exact Or.inl rfl

theorem chessComGetPlayerGames_of_failure (startDate endDate : PyDateTime)
    (net : ChessComNet) (maxGames : Nat) (timeControls : Option (List String))
    (h : net.archivesResponse.isFailure = true) :
    chessComGetPlayerGames startDate endDate net maxGames timeControls = [] := by
  unfold chessComGetPlayerGames
  rcases chessComMakeRequest_of_failure net.archivesResponse h with hc | ⟨m, hc⟩ <;>
    simp [hc, List.filter]

/-! ## Scheduled-task lemmas -/

theorem saveScheduledTask_tasks (jobId fideId : String) (platforms : List String)
    (dayOfMonth hour : Nat) (timeControls : Option (List String)) (maxGames : Nat)
    (db : Database) :
    (saveScheduledTask jobId fideId platforms dayOfMonth hour timeControls maxGames db).tasks =
      alistSet db.tasks jobId
        ⟨fideId, platforms, dayOfMonth, hour, jsonListOrNull timeControls, maxGames, true⟩ := by
  unfold saveScheduledTask
  cases h : alistFind jobId db.tasks with
  | some row => rfl
  | none => simp [alistSet_of_find_none db.tasks jobId _ h]

theorem filter_fst_alistSet {κ α : Type} [DecidableEq κ] (l : List (κ × α)) (k : κ) (v : α)
    (h : (l.map Prod.fst).Nodup) :
    (alistSet l k v).filter (fun kv => decide (kv.1 = k)) = [(k, v)] := by
  induction l with
  | nil => simp [alistSet]
  | cons kv rest ih =>
    simp only [List.map_cons, List.nodup_cons] at h
    by_cases hk : kv.1 = k
    · subst hk
      have hrest : rest.filter (fun p => decide (p.1 = kv.1)) = [] := by
        refine List.filter_eq_nil_iff.mpr ?_
        intro p hp hdec
        simp only [decide_eq_true_eq] at hdec
        exact h.1 (List.mem_map.mpr ⟨p, hp, hdec⟩)
      simp [alistSet, hrest]
    · simp only [alistSet, if_neg hk, List.filter_cons, decide_eq_true_eq]
      exact ih h.2

theorem filter_fide_alistSet (l : List (String × TaskRow)) (jid fid : String) (row : TaskRow)
    (hrow : row.fide_id = fid)
    (hnodup : (l.map Prod.fst).Nodup)
    (honly : ∀ p ∈ l, p.2.fide_id = fid → p.1 = jid) :
    (alistSet l jid row).filter (fun kv => decide (kv.2.fide_id = fid)) = [(jid, row)] := by
  induction l with
  | nil => simp [alistSet, hrow]
  | cons kv rest ih =>
    simp only [List.map_cons, List.nodup_cons] at hnodup
    by_cases hk : kv.1 = jid
    · subst hk
      have hrest : rest.filter (fun p => decide (p.2.fide_id = fid)) = [] := by
        refine List.filter_eq_nil_iff.mpr ?_
        intro p hp hdec
        simp only [decide_eq_true_eq] at hdec
        have := honly p (List.mem_cons_of_mem _ hp) hdec
        exact hnodup.1 (List.mem_map.mpr ⟨p, hp, this⟩)
      simp [alistSet, hrow, hrest]
    · have hkvfid : ¬kv.2.fide_id = fid := fun hc =>
        hk (honly kv (List.mem_cons_self _ _) hc)
      simp only [alistSet, if_neg hk, List.filter_cons, decide_eq_true_eq,
        if_neg hkvfid]
      exact ih hnodup.2 (fun p hp hfid => honly p (List.mem_cons_of_mem _ hp) hfid)

/-! ## Roster-validation lemma -/

theorem hasDuplicate_eq_false (l : List String) : hasDuplicate l = false ↔ l.Nodup := by
  induction l with
  | nil => simp [hasDuplicate]
  | cons x xs ih => simp [hasDuplicate, List.nodup_cons, ih]

theorem hasDuplicate_eq_true (l : List String) : hasDuplicate l = true ↔ ¬l.Nodup := by
  rw [← hasDuplicate_eq_false]
  cases h : hasDuplicate l <;> simp

/-! ## Claim theorems -/

/-- C1: `ChessComClient.get_player_games` called with `max_games = 5`
against a source yielding 12 matching games in the requested window returns
all 12 games — the client never reads `max_games`, so the result is not
truncated to 5 as its own docstring ("Maximum number of games to fetch")
promises. -/
theorem chessComGetPlayerGames_ignores_max :
    (chessComGetPlayerGames ⟨2025, 11⟩ ⟨2026, 1⟩ sampleNetTwelve 5 none).length = 12 ∧
    (12 : Nat) ≠ 5 := by
  constructor
  · decide
  · decide

/-- C2 (counterexample): on the manual chess.com collection branch fed 3
valid PGNs and 1 malformed entry, the single CollectionLogEntry written
carries `games_count = 4` — the raw fetched count, not the 3 processed
games the claim requires. -/
theorem manualCollection_logs_raw_count :
    (sampleManualRun.2.logs.map (fun e => (e.status, e.games_count))) =
      [("success", 4)] ∧ (4 : Nat) ≠ 3 := by
  constructor
  · decide
  · decide

/-- C2 (amended): the same cycle saves exactly 3 games into the monthly
bucket and adds 3 to `total_games` of the archive summary, but the one
log row written records `status = success` with `games_count = 4` (the raw
fetched count), and `total_games` of the account row grows by that raw
count (10 + 4 = 14). -/
theorem manualCollection_effects :
    (alistFind ("123", "chess.com", "2026-01") sampleManualRun.1.buckets).map
        List.length = some 3 ∧
    summaryOf sampleManualRun.1 "123" "chess.com" = some ⟨sampleNow, 13, true⟩ ∧
    sampleManualRun.2.logs.map (fun e => (e.status, e.games_count)) =
      [("success", 4)] ∧
    (alistFind ("123", "chess.com") sampleManualRun.2.accounts).map
        AccountRow.total_games = some 14 := by
  refine ⟨?_, ?_, ?_, ?_⟩ <;> decide

/-- C3 (counterexample): the classifier does not behave as claimed —
a game tagged `600+0` does not match a `blitz` filter, a game tagged
`1800+0` does not match a `rapid` filter, and a game with no time-control
tag whose event label contains "Bullet" does not pass a `bullet` filter. -/
theorem timeControl_claim_false :
    ¬(isMatchingTimeControl samplePgn600 (some ["blitz"]) = some true ∧
      isMatchingTimeControl samplePgn1800 (some ["rapid"]) = some true ∧
      isMatchingTimeControl samplePgnNoTag (some ["bullet"]) = some true) := by
  decide

/-- C3 (amended): with the strict thresholds of the source, a tag of
`600+0` classifies as rapid (not blitz), `60+0` as bullet, `1800+0` as
classical (not rapid); a game with no time-control tag matches no filter at
all, even when its event label contains "Bullet"; and when both an event
keyword and a tag are present the event label wins (event-first, not
tag-first precedence). -/
theorem timeControl_classification :
    isMatchingTimeControl samplePgn600 (some ["rapid"]) = some true ∧
    isMatchingTimeControl samplePgn600 (some ["blitz"]) = some false ∧
    isMatchingTimeControl samplePgn60 (some ["bullet"]) = some true ∧
    isMatchingTimeControl samplePgn1800 (some ["classical"]) = some true ∧
    isMatchingTimeControl samplePgn1800 (some ["rapid"]) = some false ∧
    isMatchingTimeControl samplePgnNoTag (some ["bullet"]) = some false ∧
    isMatchingTimeControl samplePgnEventRapid (some ["rapid"]) = some true ∧
    isMatchingTimeControl samplePgnEventRapid (some ["bullet"]) = some false := by
  refine ⟨?_, ?_, ?_, ?_, ?_, ?_, ?_, ?_⟩ <;> decide

/-- C5: persisting an empty game list for an inactive account leaves every
existing bucket file byte-identical — `save_pgn_files` returns before any
bucket write or delete, so the bucket map of the archive is unchanged. -/
theorem savePgnFiles_inactive_preserves_buckets (today : Today)
    (nowStr platform playerName fideId : String) (fs : ArchiveFS) :
    ((savePgnFiles today nowStr [] platform playerName fideId false fs).2).buckets =
      fs.buckets :=
  savePgnFiles_empty_buckets today nowStr platform playerName fideId false fs

/-- C7: the normalizer is idempotent — re-processing its own output with
the same platform, player name and FIDE id yields byte-identical serialized
output (the source stamps no timestamp header, so the outputs agree on
every field). -/
theorem processPgnData_idem (pgnList : List PgnText) (platform playerName fideId : String) :
    processPgnData (processPgnData pgnList platform playerName fideId)
        platform playerName fideId =
      processPgnData pgnList platform playerName fideId := by
  induction pgnList with
  | nil => rfl
  | cons p rest ih =>
    cases p with
    | malformed raw => simpa [processPgnData, readGame] using ih
    | game g =>
      simp [processPgnData, readGame, exportGame, stampGame_idem, ih]

/-- C9 (counterexample): the attribute set extracted from a normalized
game has exactly the twelve source fields and no `outcome` key — no
white-win/black-win/draw/unknown classification is derived. -/
theorem extractGameMetadata_no_outcome :
    alistFind "outcome" (extractGameMetadata (PgnText.game sampleNormalizedGame)) =
      none ∧
    (extractGameMetadata (PgnText.game sampleNormalizedGame)).map Prod.fst =
      metadataKeys := by
  constructor
  · decide
  · decide

/-- C9 (amended): metadata extraction is a pure function of the game text:
for every parseable game it returns the flat attribute list with exactly
the keys `event`..`black_fide_id`, each value read from the corresponding
header (the raw `result` string included), and it derives no `outcome`
field. -/
theorem extractGameMetadata_fields (p : PgnText) (g : Game)
    (h : readGame p = some g) :
    (extractGameMetadata p).map Prod.fst = metadataKeys ∧
    alistFind "result" (extractGameMetadata p) = some (getHeader g.headers "Result") ∧
    alistFind "white" (extractGameMetadata p) = some (getHeader g.headers "White") ∧
    alistFind "black" (extractGameMetadata p) = some (getHeader g.headers "Black") ∧
    alistFind "white_elo" (extractGameMetadata p) = some (getHeader g.headers "WhiteElo") ∧
    alistFind "black_elo" (extractGameMetadata p) = some (getHeader g.headers "BlackElo") ∧
    alistFind "time_control" (extractGameMetadata p) =
      some (getHeader g.headers "TimeControl") ∧
    alistFind "termination" (extractGameMetadata p) =
      some (getHeader g.headers "Termination") ∧
    alistFind "outcome" (extractGameMetadata p) = none := by
  cases p with
  | malformed raw => simp [readGame] at h
  | game g2 =>
    have hg : g2 = g := by simpa [readGame] using h
    subst hg
    exact ⟨rfl, rfl, rfl, rfl, rfl, rfl, rfl, rfl, rfl⟩

/-- C9 (witness): the amended property instantiated on the sample
normalized game. -/
theorem extractGameMetadata_fields_witness :
    readGame (PgnText.game sampleNormalizedGame) = some sampleNormalizedGame ∧
    (extractGameMetadata (PgnText.game sampleNormalizedGame)).map Prod.fst =
      metadataKeys :=
  ⟨rfl, (extractGameMetadata_fields (PgnText.game sampleNormalizedGame)
    sampleNormalizedGame rfl).1⟩

/-- C10: roster validation accepts a DataFrame exactly when the `fide_id`
and `name` columns are present, at least one of the two username columns is
present, and no FIDE id occurs twice. -/
theorem validatePlayerData_iff (df : PlayerDataFrame) :
    (validatePlayerData df).1 = true ↔
      ("fide_id" ∈ df.columns ∧ "name" ∈ df.columns ∧
       ("chesscom_username" ∈ df.columns ∨ "lichess_username" ∈ df.columns) ∧
       df.fideIds.Nodup) := by
  unfold validatePlayerData
  split_ifs with h1 h2 h3 h4 <;>
    simp_all [not_and_or, not_not, hasDuplicate_eq_true, hasDuplicate_eq_false]
  by_cases hc : "chesscom_username" ∈ df.columns
  · exact Or.inl hc
  · exact Or.inr (h3 hc)

/-- C4 (counterexample): a cycle whose archives request fails with a
non-404/403 HTTP error obtains zero games, is recorded with
`status = inactive` (not `error`), and flips the `is_active`
flag of the account to false. -/
theorem transportFailure_recorded_inactive :
    sampleBrokenRun.2.logs.map (fun e => (e.status, e.games_count)) =
      [("inactive", 0)] ∧
    (alistFind ("123", "chess.com") sampleBrokenRun.2.accounts).map
        AccountRow.is_active = some false := by
  constructor
  · decide
  · decide

/-- C4 (amended): every transport-level failure of the archives request
(404, 403, other HTTP error, or unexpected exception) is converted by the
ChessCom client into an empty game list, so the manual cycle records the
attempt with `status = inactive` and `games_count = 0`, sets the `is_active`
flag of the account row to false, and leaves the bucket files untouched. -/
theorem transportFailure_cycle (startDate endDate : PyDateTime) (today : Today)
    (nowStr : String) (net : ChessComNet) (timePeriod : String) (maxGames : Nat)
    (player fideId : String) (tcs : Option (List String)) (fs : ArchiveFS)
    (db : Database) (row : AccountRow)
    (hfail : net.archivesResponse.isFailure = true)
    (hrow : alistFind (fideId, "chess.com") db.accounts = some row) :
    (manualChessComCycle startDate endDate today nowStr net timePeriod maxGames
        player fideId tcs fs db).2.logs =
      db.logs ++ [⟨fideId, "chess.com", timePeriod, 0, jsonListOrNull tcs,
        "inactive", none, nowStr⟩] ∧
    alistFind (fideId, "chess.com")
        (manualChessComCycle startDate endDate today nowStr net timePeriod maxGames
          player fideId tcs fs db).2.accounts =
      some ⟨row.username, false, some nowStr, row.total_games⟩ ∧
    (manualChessComCycle startDate endDate today nowStr net timePeriod maxGames
        player fideId tcs fs db).1.buckets = fs.buckets := by
  have hempty := chessComGetPlayerGames_of_failure startDate endDate net maxGames tcs hfail
  unfold manualChessComCycle
  rw [hempty]
  refine ⟨?_, ?_, ?_⟩
  · simp [manualCollectChessCom, logCollection]
  · simp [manualCollectChessCom, logCollection, hrow, alistFind_alistSet_same]
  · simp [manualCollectChessCom, savePgnFiles_empty_buckets]

/-- C4 (witness): the amended property instantiated on the broken-transport
sample run. -/
theorem transportFailure_cycle_witness :
    sampleNetBroken.archivesResponse.isFailure = true ∧
    alistFind ("123", "chess.com") sampleDB.accounts =
      some ⟨"alice", true, some "2025-12-01 00:00:00", 10⟩ ∧
    (manualChessComCycle ⟨2025, 12⟩ ⟨2026, 1⟩ sampleToday sampleNow sampleNetBroken
        "Last month" 0 "Alice Smith" "123" none sampleFS sampleDB).2.logs =
      sampleDB.logs ++ [⟨"123", "chess.com", "Last month", 0, jsonListOrNull none,
        "inactive", none, sampleNow⟩] :=
  ⟨by decide, by decide,
    (transportFailure_cycle ⟨2025, 12⟩ ⟨2026, 1⟩ sampleToday sampleNow
      sampleNetBroken "Last month" 0 "Alice Smith" "123" none sampleFS sampleDB
      ⟨"alice", true, some "2025-12-01 00:00:00", 10⟩ (by decide) (by decide)).1⟩

/-- C6 (counterexample): a persist attempt with an empty game list leaves
the rolling summary completely untouched — after an inactive zero-game
cycle the summary still carries the old `last_update` (not the attempt
time) and still says `is_active = true`. -/
theorem savePgnFiles_zero_attempt_skips_summary :
    summaryOf ((savePgnFiles sampleToday sampleNow [] "chess.com" "Alice Smith"
        "123" false sampleFS).2) "123" "chess.com" =
      some ⟨"2025-12-01 00:00:00", 10, true⟩ ∧
    ("2025-12-01 00:00:00" : String) ≠ sampleNow := by
  constructor
  · decide
  · decide

/-- C6 (amended): a persist attempt with a nonempty game list updates the
summary exactly once — `last_update` is set to the attempt time,
`is_active` to the activity flag of this cycle, and `total_games` grows by
exactly the count newly saved (never replaced); a zero-game attempt
(whatever the activity flag) returns without touching the summary, so
`last_update` is not set on zero-game attempts. -/
theorem savePgnFiles_summary_update (today : Today)
    (nowStr platform playerName fideId : String) (isActive : Bool) (fs : ArchiveFS) :
    (∀ pgnList : List PgnText, pgnList ≠ [] →
      summaryOf ((savePgnFiles today nowStr pgnList platform playerName fideId
          isActive fs).2) fideId platform =
        some ⟨nowStr,
          priorTotal fs fideId platform +
            (savePgnFiles today nowStr pgnList platform playerName fideId
              isActive fs).1,
          isActive⟩) ∧
    (∀ b : Bool,
      summaryOf ((savePgnFiles today nowStr [] platform playerName fideId b fs).2)
          fideId platform = summaryOf fs fideId platform) := by
  constructor
  · intro pgnList hne
    have hisE : pgnList.isEmpty = false := by
      cases pgnList with
      | nil => exact absurd rfl hne
      | cons a l => rfl
    have hres : savePgnFiles today nowStr pgnList platform playerName fideId
        isActive fs =
        ((writeBuckets (groupGamesByDate today pgnList) platform fideId
            (getPlayerDirectory fs playerName fideId)).1,
         updateSummary nowStr platform fideId isActive
           (writeBuckets (groupGamesByDate today pgnList) platform fideId
             (getPlayerDirectory fs playerName fideId)).1
           (writeBuckets (groupGamesByDate today pgnList) platform fideId
             (getPlayerDirectory fs playerName fideId)).2) := by
      unfold savePgnFiles
      simp [hisE]
    rw [hres]
    cases hfind : alistFind fideId fs.players with
    | some info =>
      have hdir : getPlayerDirectory fs playerName fideId = fs := by
        unfold getPlayerDirectory
        rw [hfind]
      rw [hdir]
      have hplayers : alistFind fideId
          (writeBuckets (groupGamesByDate today pgnList) platform fideId fs).2.players =
          some info := by
        rw [writeBuckets_players]
        exact hfind
      rw [summaryOf_updateSummary nowStr platform fideId isActive _ _ info hplayers]
      have hprior : priorTotal fs fideId platform =
          (match alistFind platform info.platforms with
           | some ps => ps.total_games
           | none => 0) := by
        unfold priorTotal summaryOf
        rw [hfind, Option.some_bind]
      rw [hprior]
      cases hpl : alistFind platform info.platforms with
      | none => simp
      | some ps =>
        simp only [Option.some.injEq, PlatformSummary.mk.injEq, true_and, and_true]
        by_cases hact : isActive = true
        · simp [hact]
        · have hfalse : isActive = false := by
            cases isActive
            · rfl
            · exact absurd rfl hact
          subst hfalse
          simp only [Bool.false_or]
          by_cases hn : 0 <
              (writeBuckets (groupGamesByDate today pgnList) platform fideId fs).1
          · simp [hn]
          · have hz : (writeBuckets (groupGamesByDate today pgnList)
                platform fideId fs).1 = 0 := by omega
            simp [hz]
    | none =>
      have hdir : getPlayerDirectory fs playerName fideId =
          { fs with players := fs.players ++ [(fideId, ⟨playerName, []⟩)] } := by
        unfold getPlayerDirectory
        rw [hfind]
      rw [hdir]
      have hplayers : alistFind fideId
          (writeBuckets (groupGamesByDate today pgnList) platform fideId
            { fs with players := fs.players ++ [(fideId, ⟨playerName, []⟩)] }).2.players =
          some ⟨playerName, []⟩ := by
        rw [writeBuckets_players]
        show alistFind fideId (fs.players ++ [(fideId, ⟨playerName, []⟩)]) = _
        rw [alistFind_append_of_find_none fs.players _ fideId hfind]
        simp [alistFind]
      rw [summaryOf_updateSummary nowStr platform fideId isActive _ _ _ hplayers]
      have hprior : priorTotal fs fideId platform = 0 := by
        unfold priorTotal summaryOf
        rw [hfind]
        rfl
      rw [hprior]
      simp [alistFind]
  · intro b
    exact savePgnFiles_empty_summary today nowStr platform playerName fideId b fs

/-- C6 (witness): the amended property instantiated on a one-entry list
(whose only entry is malformed, so zero games are written but the summary
is still stamped). -/
theorem savePgnFiles_summary_update_witness :
    (([PgnText.malformed "junk"] : List PgnText) ≠ []) ∧
    summaryOf ((savePgnFiles sampleToday sampleNow [PgnText.malformed "junk"]
        "chess.com" "Alice Smith" "123" true sampleFS).2) "123" "chess.com" =
      some ⟨sampleNow,
        priorTotal sampleFS "123" "chess.com" +
          (savePgnFiles sampleToday sampleNow [PgnText.malformed "junk"]
            "chess.com" "Alice Smith" "123" true sampleFS).1,
        true⟩ :=
  ⟨by decide,
    (savePgnFiles_summary_update sampleToday sampleNow "chess.com" "Alice Smith"
      "123" true sampleFS).1 [PgnText.malformed "junk"] (by decide)⟩

/-- C8: the job id is derived from the FIDE id, and scheduling the same
player twice (with any two specifications) leaves exactly one task row for
that player — the specification of the second call, reactivated
(`is_active = true`) — and exactly one trigger under the derived job id,
provided the primary keys of the store are unique and the rows of the player sit
under the derived id. -/
theorem scheduleTask_replaces (sched : List (String × SchedJob)) (db : Database)
    (fideId : String) (pl1 pl2 : List String) (d1 hr1 d2 hr2 : Nat)
    (tc1 tc2 : Option (List String)) (m1 m2 : Nat)
    (hnodupT : (db.tasks.map Prod.fst).Nodup)
    (hnodupS : (sched.map Prod.fst).Nodup)
    (honly : ∀ p ∈ db.tasks, p.2.fide_id = fideId → p.1 = "collection_" ++ fideId) :
    ((scheduleScrapingTask
        (scheduleScrapingTask sched db fideId pl1 d1 hr1 tc1 m1).2.1
        (scheduleScrapingTask sched db fideId pl1 d1 hr1 tc1 m1).2.2
        fideId pl2 d2 hr2 tc2 m2).2.2.tasks.filter
          (fun kv => decide (kv.2.fide_id = fideId))) =
      [("collection_" ++ fideId,
        ⟨fideId, pl2, d2, hr2, jsonListOrNull tc2, m2, true⟩)] ∧
    ((scheduleScrapingTask
        (scheduleScrapingTask sched db fideId pl1 d1 hr1 tc1 m1).2.1
        (scheduleScrapingTask sched db fideId pl1 d1 hr1 tc1 m1).2.2
        fideId pl2 d2 hr2 tc2 m2).2.1.filter
          (fun kv => decide (kv.1 = "collection_" ++ fideId))) =
      [("collection_" ++ fideId, ⟨d2, hr2⟩)] := by
  constructor
  · have hA : (scheduleScrapingTask sched db fideId pl1 d1 hr1 tc1 m1).2.2.tasks =
        alistSet db.tasks ("collection_" ++ fideId)
          ⟨fideId, pl1, d1, hr1, jsonListOrNull tc1, m1, true⟩ :=
      saveScheduledTask_tasks ("collection_" ++ fideId) fideId pl1 d1 hr1 tc1 m1 db
    have hB : (scheduleScrapingTask
        (scheduleScrapingTask sched db fideId pl1 d1 hr1 tc1 m1).2.1
        (scheduleScrapingTask sched db fideId pl1 d1 hr1 tc1 m1).2.2
        fideId pl2 d2 hr2 tc2 m2).2.2.tasks =
        alistSet (scheduleScrapingTask sched db fideId pl1 d1 hr1 tc1 m1).2.2.tasks
          ("collection_" ++ fideId)
          ⟨fideId, pl2, d2, hr2, jsonListOrNull tc2, m2, true⟩ :=
      saveScheduledTask_tasks ("collection_" ++ fideId) fideId pl2 d2 hr2 tc2 m2 _
    rw [hB, hA, alistSet_alistSet_same]
    exact filter_fide_alistSet db.tasks ("collection_" ++ fideId) fideId _ rfl
      hnodupT honly
  · show ((alistSet (alistSet sched ("collection_" ++ fideId) ⟨d1, hr1⟩)
        ("collection_" ++ fideId) ⟨d2, hr2⟩).filter
          (fun kv => decide (kv.1 = "collection_" ++ fideId))) = _
    rw [alistSet_alistSet_same]
    exact filter_fst_alistSet sched ("collection_" ++ fideId) ⟨d2, hr2⟩ hnodupS

/-- C8 (witness): two concrete scheduling calls for the same player on an
empty store. -/
theorem scheduleTask_replaces_witness :
    ((sampleDB.tasks.map Prod.fst).Nodup) ∧
    ((scheduleScrapingTask
        (scheduleScrapingTask [] sampleDB "123" ["Chess.com"] 1 2 (some ["blitz"]) 0).2.1
        (scheduleScrapingTask [] sampleDB "123" ["Chess.com"] 1 2 (some ["blitz"]) 0).2.2
        "123" ["Lichess"] 3 4 none 5).2.2.tasks.filter
          (fun kv => decide (kv.2.fide_id = "123"))) =
      [("collection_" ++ "123", ⟨"123", ["Lichess"], 3, 4, jsonListOrNull none, 5, true⟩)] :=
  ⟨by decide,
    (scheduleTask_replaces [] sampleDB "123" ["Chess.com"] ["Lichess"] 1 2 3 4
      (some ["blitz"]) none 0 5 (by decide) (by decide)
      (fun p hp _ => absurd hp (List.not_mem_nil p))).1⟩

end ChessArchive
